import Mathlib

/-!
A shallow embedding, in Lean 4, of the single-file Streamlit application
`2l_app.py` (a batch web/PDF text extractor that calls an LLM and collects
tabular output), together with theorems settling the frozen claims about it.

Modelling conventions:
* Python strings are Lean `String`s; character-level operations go through
  `String.data : String → List Char`, and Python's `str.startswith`,
  `str.endswith`, `str.lower`, `in`, slicing `[:n]`, `split`, `partition`
  and `strip` are modelled as the list-level functions below.
* The three external services (HTTP fetch + PDF text extraction,
  HTTP fetch + BeautifulSoup text extraction, and the OpenAI chat
  completion) are modelled as oracle functions in an `Env` structure,
  returning `Except String String`: `Except.error e` models a raised
  exception with message `e`, `Except.ok s` models a successful call whose
  extracted text / message content is `s`.
* `datetime.today().strftime("%Y-%m-%d")` is modelled as the ambient value
  `today : String` threaded explicitly.
* The regular expressions of the script are modelled as explicit scanners
  over `List Char` implementing Python `re.search` semantics (leftmost
  match, greedy quantifiers with backtracking) for the concrete patterns.
-/

namespace TwoL

/-! ### Python string primitives -/

/-- The characters Python's `str.strip()` removes (ASCII whitespace). -/
def pyspace (c : Char) : Bool :=
  c = ' ' || c = '\t' || c = '\n' || c = '\r' || c = '\x0b' || c = '\x0c'

/-- Python `str.strip()`: drop leading and trailing whitespace. -/
def pystrip (cs : List Char) : List Char :=
  ((cs.dropWhile pyspace).reverse.dropWhile pyspace).reverse

/-- Python `s.startswith(p)`. -/
def startswith (s p : String) : Bool :=
  p.data.isPrefixOf s.data

/-- Python `s.endswith(p)`. -/
def endswith (s p : String) : Bool :=
  p.data.isSuffixOf s.data

/-- Python `s.lower()` (ASCII range, which is all the program uses). -/
def pylower (s : String) : String :=
  String.mk (s.data.map Char.toLower)

/-- `substrAt n h`: `n` occurs in `h` starting at some position (prefix of
some suffix). -/
def substrAt (n : List Char) : List Char → Bool
  | [] => n.isPrefixOf []
  | c :: cs => n.isPrefixOf (c :: cs) || substrAt n cs

/-- Python `needle in hay` on strings (substring test). -/
def pyin (needle hay : String) : Bool :=
  substrAt needle.data hay.data

/-- Python slicing `s[:n]`. -/
def pytruncate (s : String) (n : Nat) : String :=
  String.mk (s.data.take n)

/-- Python `s.split(sep)` for a one-character separator. -/
def splitChar (sep : Char) : List Char → List (List Char)
  | [] => [[]]
  | c :: cs =>
    match splitChar sep cs with
    | [] => [[]]
    | l :: ls => if c = sep then [] :: l :: ls else (c :: l) :: ls

/-- The third component of Python `s.partition(sep)` for a one-character
separator: everything after the first occurrence of `sep`, or `[]` when
`sep` does not occur. -/
def partitionAfter (sep : Char) : List Char → List Char
  | [] => []
  | c :: cs => if c = sep then cs else partitionAfter sep cs

/-! ### The external world -/

/-- Oracles for the three external services the script calls, plus the
current date.  `fetchPdf url` models `requests.get` + writing `temp.pdf` +
`fitz.open` + concatenating `page.get_text()` over all pages; `fetchHtml
url` models `requests.get` + `BeautifulSoup(...)` + decomposing
`script`/`style` tags + `soup.get_text(separator=" ", strip=True)`;
`llm prompt` models `openai.ChatCompletion.create` +
`response['choices'][0]['message']['content']`.  An `Except.error e`
models a raised exception whose `str(e)` is `e`. -/
structure Env where
  fetchPdf : String → Except String String
  fetchHtml : String → Except String String
  llm : String → Except String String
  today : String

/-! ### fetch_clean_text -/

/-- The PDF branch of `fetch_clean_text`: download, extract all page text,
return the first 4000 characters, or an error string when the PDF yields
no text; exceptions are formatted `"Error fetching {url}: {e}"`. -/
def pdf_branch (env : Env) (url : String) : String :=
  match env.fetchPdf url with
  | Except.ok text =>
    if text = "" then "Error: No text found in PDF" else pytruncate text 4000
  | Except.error e => "Error fetching " ++ url ++ ": " ++ e

/-- The HTML branch of `fetch_clean_text`: fetch, strip markup, return the
first 4000 characters; exceptions are formatted `"Error fetching {url}: {e}"`. -/
def html_branch (env : Env) (url : String) : String :=
  match env.fetchHtml url with
  | Except.ok body => pytruncate body 4000
  | Except.error e => "Error fetching " ++ url ++ ": " ++ e

/-- `fetch_clean_text(url)`: branch on `url.lower().endswith(".pdf")`. -/
def fetch_clean_text (env : Env) (url : String) : String :=
  if endswith (pylower url) ".pdf" then pdf_branch env url
  else html_branch env url

/-! ### generate_2l_format -/

/-- The fixed prompt template of `generate_2l_format`, with the fetched
text spliced in (the f-string triple-quoted literal of the source,
including its leading and trailing newline). -/
def prompt2l (text : String) : String :=
  "\nYou are an expert equity research analyst. Given the following content from a web page or PDF, extract the information and present it in this custom format called \x272l\x27:\n\n1. Key pointers and very important\n2. Summarize this (if possible, add % with this)\n3. A 2-3 line final summary (if possible, add % with this)\n4. Explain to a 5-year-old\n5. In one word (a proper heading with process)\n6. Is it good or bad for the company (in 2 lines)\n\nOnly output in structured format. Do not explain.\n\nHere is the content:\n"
    ++ text ++ "\n"

/-- `generate_2l_format(text)`: one chat-completion call on the fixed
prompt; on success the raw message content, on exception `"Error: {e}"`. -/
def generate_2l_format (llm : String → Except String String) (text : String) :
    String :=
  match llm (prompt2l text) with
  | Except.ok content => content
  | Except.error e => "Error: " ++ e

/-! ### parse_2l -/

/-- The value stored for a matching line: `line.partition(".")[2].strip()`
of the already stripped line. -/
def fieldValue (l : List Char) : String :=
  String.mk (pystrip (partitionAfter '.' l))

/-- One iteration of the `for line in lines` loop of `parse_2l`:
strip the line, then the six-way `if`/`elif` on the prefixes
`"1."` … `"6."`. -/
def parseStep (values : List String) (line : List Char) : List String :=
  let l := pystrip line
  if ['1', '.'].isPrefixOf l then values.set 0 (fieldValue l)
  else if ['2', '.'].isPrefixOf l then values.set 1 (fieldValue l)
  else if ['3', '.'].isPrefixOf l then values.set 2 (fieldValue l)
  else if ['4', '.'].isPrefixOf l then values.set 3 (fieldValue l)
  else if ['5', '.'].isPrefixOf l then values.set 4 (fieldValue l)
  else if ['6', '.'].isPrefixOf l then values.set 5 (fieldValue l)
  else values

/-- `parse_2l(response)`: split on newlines, start from `[""] * 6`, and
run the line loop. -/
def parse_2l (response : String) : List String :=
  (splitChar '\n' response.data).foldl parseStep (List.replicate 6 "")

/-! ### Metadata extractors -/

/-- `c` is in the character class `[A-Z]`. -/
def isUpperAZ (c : Char) : Bool := 'A' ≤ c && c ≤ 'Z'

/-- `c` is in the character class `[a-z]`. -/
def isLowerAZ (c : Char) : Bool := 'a' ≤ c && c ≤ 'z'

/-- `c` is in the character class `\d`. -/
def isDigit09 (c : Char) : Bool := '0' ≤ c && c ≤ '9'

/-- `c` is in the character class `\s` (ASCII whitespace). -/
def isSpaceClass (c : Char) : Bool := pyspace c

/-- Match `[A-Z][a-z]+` at the head of `cs` (greedy; the run is maximal,
which is exact because every continuation in the company pattern requires
a space next).  Returns the consumed word and the rest. -/
def capWord (cs : List Char) : Option (List Char × List Char) :=
  match cs with
  | [] => none
  | c :: rest =>
    if isUpperAZ c then
      let run := rest.takeWhile isLowerAZ
      if run.length ≥ 1 then some (c :: run, rest.drop run.length) else none
    else none

/-- Match the alternation `(?:Limited|Ltd|Industries|Corporation)` as a
prefix of `cs`, first alternative first; returns the consumed literal. -/
def companyKeyword (cs : List Char) : Option (List Char) :=
  if "Limited".data.isPrefixOf cs then some "Limited".data
  else if "Ltd".data.isPrefixOf cs then some "Ltd".data
  else if "Industries".data.isPrefixOf cs then some "Industries".data
  else if "Corporation".data.isPrefixOf cs then some "Corporation".data
  else none

/-- All states of the greedy star `(?: [A-Z][a-z]+)*` starting at `cs`:
the list of `(consumed, rest)` pairs for 0, 1, 2, … iterations, in
increasing order of iteration count. -/
def wordChain (cs : List Char) : List (List Char × List Char) :=
  ([], cs) ::
    (match cs with
     | ' ' :: rest =>
       match h : capWord rest with
       | some (w, rest2) =>
         (wordChain rest2).map (fun p => (' ' :: (w ++ p.1), p.2))
       | none => []
     | _ => [])
termination_by cs.length
decreasing_by
  simp only [capWord] at h
  split at h
  · exact absurd h (by simp)
  · rename_i c rest3
    split at h
    · split at h
      · simp only [Option.some.injEq, Prod.mk.injEq] at h
        have : rest2.length ≤ rest3.length := by
          rcases h with ⟨_, h2⟩
          subst h2
          simp [List.length_drop]
        simp
        omega
      · exact absurd h (by simp)
    · exact absurd h (by simp)

/-- Match the whole company pattern
`([A-Z][a-z]+(?: [A-Z][a-z]+)* (?:Limited|Ltd|Industries|Corporation))`
anchored at `cs`, with greedy backtracking over the star (most iterations
first).  Returns the full match. -/
def companyAt (cs : List Char) : Option (List Char) :=
  match capWord cs with
  | none => none
  | some (w1, rest) =>
    (wordChain rest).reverse.findSome? fun p =>
      match p.2 with
      | ' ' :: rest2 =>
        (companyKeyword rest2).map fun kw => w1 ++ p.1 ++ ' ' :: kw
      | _ => none

/-- `re.search` for the company pattern: leftmost position wins. -/
def companySearch : List Char → Option (List Char)
  | [] => none
  | c :: rest =>
    match companyAt (c :: rest) with
    | some m => some m
    | none => companySearch rest

/-- `extract_company(text)`: the whole match of the company regular
expression, or `"Unknown"`. -/
def extract_company (text : String) : String :=
  match companySearch text.data with
  | some m => String.mk m
  | none => "Unknown"

/-- The sector keyword table, in the source's insertion order. -/
def sectorKeywords : List (String × String) :=
  [("Pharma", "Healthcare"),
   ("Chemical", "Specialty Chemicals"),
   ("Bank", "Financials"),
   ("Power", "Energy"),
   ("Steel", "Metals"),
   ("Auto", "Automobile"),
   ("IT", "Technology"),
   ("Software", "Technology"),
   ("Retail", "Consumer"),
   ("FMCG", "Consumer Staples")]

/-- `guess_sector(text)`: first keyword (in table order) whose lowercase
form occurs in the lowercased text; `"Unknown"` otherwise. -/
def guess_sector (text : String) : String :=
  match sectorKeywords.find? (fun kv => pyin (pylower kv.1) (pylower text)) with
  | some kv => kv.2
  | none => "Unknown"

/-- `re.search(r'/([A-Z]{1,10})_', url)` and its captured group: at each
position (leftmost first), a `'/'`, then a maximal run of 1–10 uppercase
letters, then `'_'`.  Maximality is exact: if more than 10 uppercase
letters follow the slash, or the character after the run is not `'_'`, no
repetition count matches at that position, because every shorter repetition
leaves an uppercase letter (never `'_'`) where `'_'` is required. -/
def scanSlashUpper : List Char → Option (List Char)
  | [] => none
  | c :: rest =>
    if c = '/' then
      let run := rest.takeWhile isUpperAZ
      if 1 ≤ run.length ∧ run.length ≤ 10 ∧
          (rest.drop run.length).head? = some '_'
      then some run
      else scanSlashUpper rest
    else scanSlashUpper rest

/-- `re.search(r'/companies/([A-Z]{1,10})', url)` and its captured group:
at each position (leftmost first), the literal `"/companies/"`, then at
least one uppercase letter; the greedy capture is the run of uppercase
letters truncated to 10. -/
def scanCompanies : List Char → Option (List Char)
  | [] => none
  | c :: rest =>
    if "/companies/".data.isPrefixOf (c :: rest) then
      let run := ((c :: rest).drop 11).takeWhile isUpperAZ
      if 1 ≤ run.length then some (run.take 10) else scanCompanies rest
    else scanCompanies rest

/-- `re.search(r'BSE[:\s]+([A-Z]{1,10})', text)` and its captured group:
at each position (leftmost first), the literal `"BSE"`, then a maximal
nonempty run of `':'`/whitespace, then at least one uppercase letter; the
greedy capture is the uppercase run truncated to 10.  Maximality of the
class run is exact because class characters are never uppercase. -/
def scanBSE : List Char → Option (List Char)
  | [] => none
  | c :: rest =>
    if "BSE".data.isPrefixOf (c :: rest) then
      let afterBSE := (c :: rest).drop 3
      let sepRun := afterBSE.takeWhile (fun d => d = ':' || isSpaceClass d)
      let afterSep := afterBSE.drop sepRun.length
      let run := afterSep.takeWhile isUpperAZ
      if 1 ≤ sepRun.length ∧ 1 ≤ run.length then some (run.take 10)
      else scanBSE rest
    else scanBSE rest

/-- `extract_symbol(url, text)`: the three patterns in fixed precedence
(URL slash-underscore, URL `/companies/`, text `BSE:`), else `"Unknown"`. -/
def extract_symbol (url text : String) : String :=
  match scanSlashUpper url.data with
  | some g => String.mk g
  | none =>
    match scanCompanies url.data with
    | some g => String.mk g
    | none =>
      match scanBSE text.data with
      | some g => String.mk g
      | none => "Unknown"

/-- The announcement-type keyword table, in the source's insertion order. -/
def annKeywords : List (String × String) :=
  [("expansion", "Expansion"),
   ("capex", "Capex"),
   ("dividend", "Dividend"),
   ("merger", "Merger/Acquisition"),
   ("acquisition", "Merger/Acquisition"),
   ("order", "Order Win"),
   ("contract", "Order Win"),
   ("plant", "Capacity/Infra"),
   ("result", "Financial Result"),
   ("profit", "Financial Result"),
   ("loss", "Financial Result"),
   ("bonus", "Bonus/Split"),
   ("buyback", "Buyback"),
   ("joint venture", "JV/Partnership")]

/-- `detect_announcement_type(text)`: first keyword (in table order)
occurring in the lowercased text; `"General"` otherwise. -/
def detect_announcement_type (text : String) : String :=
  match annKeywords.find? (fun kv => pyin kv.1 (pylower text)) with
  | some kv => kv.2
  | none => "General"

/-- One attempt of the date pattern (four digits, an optional dash or
slash, two digits, an optional dash or slash, two digits — the source's
`re.search(..., url)` pattern in `extract_date_from_url`) anchored at
`cs`: exactly four digits, an optional separator (consumed
exactly when present, since a digit is never a separator and a separator
is never a digit, so greedy matching is deterministic), two digits, an
optional separator, two digits.  Returns the three captured groups. -/
def dateAt (cs : List Char) : Option (List Char × List Char × List Char) :=
  let y := cs.take 4
  if y.length = 4 ∧ y.all isDigit09 then
    let r1 := cs.drop 4
    let r1' := if r1.head? = some '-' ∨ r1.head? = some '/' then r1.drop 1 else r1
    let m := r1'.take 2
    if m.length = 2 ∧ m.all isDigit09 then
      let r2 := r1'.drop 2
      let r2' := if r2.head? = some '-' ∨ r2.head? = some '/' then r2.drop 1 else r2
      let d := r2'.take 2
      if d.length = 2 ∧ d.all isDigit09 then some (y, m, d) else none
    else none
  else none

/-- `re.search` for the date pattern: leftmost position wins. -/
def scanDate : List Char → Option (List Char × List Char × List Char)
  | [] => none
  | c :: rest =>
    match dateAt (c :: rest) with
    | some g => some g
    | none => scanDate rest

/-- `extract_date_from_url(url)`: format the first date-pattern match as
`"{y}-{m}-{d}"`; otherwise fall back to
`datetime.today().strftime("%Y-%m-%d")`, modelled by the ambient value
`today`. -/
def extract_date_from_url (today : String) (url : String) : String :=
  match scanDate url.data with
  | some (y, m, d) => String.mk y ++ "-" ++ String.mk m ++ "-" ++ String.mk d
  | none => today

/-! ### The Run Extraction loop -/

/-- The body of the `for i, row in df_links.iterrows()` loop, producing
the row appended to `output_data` for one link.  The progress bar, status
text and `time.sleep(1.2)` are UI effects with no bearing on the data. -/
def processRow (env : Env) (link : String) : List String :=
  let text := fetch_clean_text env link
  if startswith text "Error" then
    [link, "Unknown", "Unknown", "Unknown", "Error", "Error"] ++
      List.replicate 6 "Error"
  else
    let date := extract_date_from_url env.today link
    let company := extract_company text
    let sector := guess_sector text
    let symbol := extract_symbol link text
    let annType := detect_announcement_type text
    let gptOutput := generate_2l_format env.llm text
    let values := parse_2l gptOutput
    [link, symbol, company, sector, date, annType] ++ values

/-- The whole `Run Extraction` loop: starting from the empty
`output_data`, append one row per link, in input order. -/
def runExtraction (env : Env) (links : List String) : List (List String) :=
  links.foldl (fun outputData link => outputData ++ [processRow env link]) []

/-! ### General helper lemmas -/

/-- A prefix of `a` is a prefix of `a ++ b`. -/
lemma isPrefixOf_append {p a b : List Char} (h : p.isPrefixOf a = true) :
    p.isPrefixOf (a ++ b) = true := by
  induction p generalizing a with
  | nil => simp
  | cons c ps ih =>
    cases a with
    | nil => simp at h
    | cons d as =>
      simp only [List.isPrefixOf_cons₂, Bool.and_eq_true] at h
      simp only [List.cons_append, List.isPrefixOf_cons₂, Bool.and_eq_true]
      exact ⟨h.1, ih h.2⟩

/-- Error strings built by concatenation start with `"Error"`. -/
lemma startswith_error_append (s : String) :
    startswith ("Error fetching " ++ s) "Error" = true := by
  unfold startswith
  rw [String.data_append]
  exact isPrefixOf_append (by decide)

/-- A concrete environment used by the witnesses. -/
def env0 : Env :=
  { fetchPdf := fun _ => Except.ok "pdf page text"
    fetchHtml := fun _ => Except.ok "html body text"
    llm := fun _ => Except.ok "1. A\n2. B\n3. C\n4. D\n5. E\n6. F"
    today := "2025-01-01" }

/-! ### C1: fetch_clean_text shape -/

/-- C1: for every URL, `fetch_clean_text` returns either plain text of at
most 4000 characters or an error string beginning with `"Error"`, and it
takes the PDF branch exactly when the lowercased URL ends with `".pdf"`,
otherwise the HTML branch. -/
theorem fetch_clean_text_shape (env : Env) (url : String) :
    ((fetch_clean_text env url).length ≤ 4000 ∨
      startswith (fetch_clean_text env url) "Error" = true) ∧
    (endswith (pylower url) ".pdf" = true →
      fetch_clean_text env url = pdf_branch env url) ∧
    (endswith (pylower url) ".pdf" = false →
      fetch_clean_text env url = html_branch env url) := by
  refine ⟨?_, fun h => by simp [fetch_clean_text, h], fun h => by simp [fetch_clean_text, h]⟩
  unfold fetch_clean_text
  have hpdf : (pdf_branch env url).length ≤ 4000 ∨
      startswith (pdf_branch env url) "Error" = true := by
    unfold pdf_branch
    cases env.fetchPdf url with
    | ok text =>
      by_cases h : text = ""
      · simp only [h, if_pos rfl]
        exact Or.inr (by decide)
      · simp only [if_neg h]
        left
        simp [pytruncate, List.length_take]
    | error e =>
      right
      show startswith ("Error fetching " ++ url ++ ": " ++ e) "Error" = true
      have : "Error fetching " ++ url ++ ": " ++ e =
          "Error fetching " ++ (url ++ ": " ++ e) := by
        simp [String.append_assoc]
      rw [this]
      exact startswith_error_append _
  have hhtml : (html_branch env url).length ≤ 4000 ∨
      startswith (html_branch env url) "Error" = true := by
    unfold html_branch
    cases env.fetchHtml url with
    | ok body =>
      left
      simp [pytruncate, List.length_take]
    | error e =>
      right
      show startswith ("Error fetching " ++ url ++ ": " ++ e) "Error" = true
      have : "Error fetching " ++ url ++ ": " ++ e =
          "Error fetching " ++ (url ++ ": " ++ e) := by
        simp [String.append_assoc]
      rw [this]
      exact startswith_error_append _
  split
  · exact hpdf
  · exact hhtml

/-- Witness for C1 at a concrete PDF and a concrete HTML URL. -/
theorem fetch_clean_text_shape_witness :
    fetch_clean_text env0 "a.PDF" = pdf_branch env0 "a.PDF" ∧
    fetch_clean_text env0 "a.html" = html_branch env0 "a.html" :=
  ⟨(fetch_clean_text_shape env0 "a.PDF").2.1 (by decide),
   (fetch_clean_text_shape env0 "a.html").2.2 (by decide)⟩

/-! ### C7: generate_2l_format -/

/-- C7: `generate_2l_format` returns the LLM response's raw content
unchanged on success, the string `"Error: {e}"` when the call raises `e`,
and its result depends on the oracle only through the single value of the
fixed prompt `prompt2l text` (one call, no retry, no other prompt). -/
theorem generate_2l_format_spec (llm llm2 : String → Except String String)
    (text : String) :
    (∀ c, llm (prompt2l text) = Except.ok c → generate_2l_format llm text = c) ∧
    (∀ e, llm (prompt2l text) = Except.error e →
      generate_2l_format llm text = "Error: " ++ e) ∧
    (llm (prompt2l text) = llm2 (prompt2l text) →
      generate_2l_format llm text = generate_2l_format llm2 text) := by
  refine ⟨fun c h => ?_, fun e h => ?_, fun h => ?_⟩
  · simp [generate_2l_format, h]
  · simp [generate_2l_format, h]
  · simp [generate_2l_format, h]

/-- Witness for C7: a concrete success call and a concrete failing call. -/
theorem generate_2l_format_spec_witness :
    generate_2l_format (fun _ => Except.ok "raw content") "t" = "raw content" ∧
    generate_2l_format (fun _ => Except.error "APIError") "t" = "Error: APIError" :=
  ⟨(generate_2l_format_spec (fun _ => Except.ok "raw content")
      (fun _ => Except.ok "raw content") "t").1 "raw content" rfl,
   (generate_2l_format_spec (fun _ => Except.error "APIError")
      (fun _ => Except.error "APIError") "t").2.1 "APIError" rfl⟩

/-! ### C3: one output row per link, in order, keyed by the link -/

/-- Appending singletons from the left is mapping. -/
lemma foldl_push_eq_map {α β : Type} (f : α → β) :
    ∀ (l : List α) (acc : List β),
      l.foldl (fun o x => o ++ [f x]) acc = acc ++ l.map f := by
  intro l
  induction l with
  | nil => simp
  | cons x xs ih => intro acc; simp [ih]

/-- Both branches of the loop body put the link first. -/
lemma processRow_head (env : Env) (link : String) :
    (processRow env link).head? = some link := by
  by_cases h : startswith (fetch_clean_text env link) "Error" = true <;>
    simp [processRow, h]

/-- C3: the orchestrator produces exactly one output row per input link,
in input order, and the first column of each output row is that row's
link — including rows whose fetch failed. -/
theorem runExtraction_rows (env : Env) (links : List String) (i : Nat) :
    (runExtraction env links).length = links.length ∧
    ((runExtraction env links)[i]?).map List.head? = (links[i]?).map some := by
  unfold runExtraction
  rw [foldl_push_eq_map]
  constructor
  · simp
  · rw [List.nil_append, List.getElem?_map]
    cases h : links[i]? with
    | none => rfl
    | some link => simp [processRow_head]

/-! ### C9: error classification in the loop -/

/-- C9: a row is classified as failed exactly when the fetched text
starts with `"Error"`; in that case the fixed placeholder row is appended
and metadata extraction and the LLM call are skipped (the row does not
depend on them); otherwise the full row is built from the extractors and
the parsed LLM output — so a successfully fetched page whose text begins
with `"Error"` takes the failure path, while an empty extraction takes
the success path and is sent to the LLM. -/
theorem processRow_error_classification (env : Env) (link : String) :
    (startswith (fetch_clean_text env link) "Error" = true →
      processRow env link =
        [link, "Unknown", "Unknown", "Unknown", "Error", "Error"] ++
          List.replicate 6 "Error") ∧
    (startswith (fetch_clean_text env link) "Error" = false →
      processRow env link =
        [link, extract_symbol link (fetch_clean_text env link),
         extract_company (fetch_clean_text env link),
         guess_sector (fetch_clean_text env link),
         extract_date_from_url env.today link,
         detect_announcement_type (fetch_clean_text env link)] ++
          parse_2l (generate_2l_format env.llm (fetch_clean_text env link))) := by
  constructor <;> intro h <;> simp [processRow, h]

/-- A concrete environment whose HTML fetch succeeds but yields text that
begins with `"Error"`. -/
def envErrText : Env :=
  { fetchPdf := fun _ => Except.error "unreachable"
    fetchHtml := fun _ => Except.ok "Error 404 page not found"
    llm := fun _ => Except.ok "unused"
    today := "2025-01-01" }

/-- A concrete environment whose HTML fetch succeeds with empty text. -/
def envEmptyText : Env :=
  { fetchPdf := fun _ => Except.error "unreachable"
    fetchHtml := fun _ => Except.ok ""
    llm := fun _ => Except.ok "1. A"
    today := "2025-01-01" }

/-- Witness for C9: a successful fetch whose text begins with `"Error"`
is treated as a failure; an empty extraction is treated as a success. -/
theorem processRow_error_classification_witness :
    processRow envErrText "u" =
      ["u", "Unknown", "Unknown", "Unknown", "Error", "Error"] ++
        List.replicate 6 "Error" ∧
    processRow envEmptyText "u" =
      ["u", extract_symbol "u" (fetch_clean_text envEmptyText "u"),
       extract_company (fetch_clean_text envEmptyText "u"),
       guess_sector (fetch_clean_text envEmptyText "u"),
       extract_date_from_url envEmptyText.today "u",
       detect_announcement_type (fetch_clean_text envEmptyText "u")] ++
        parse_2l (generate_2l_format envEmptyText.llm (fetch_clean_text envEmptyText "u")) :=
  ⟨(processRow_error_classification envErrText "u").1 (by decide),
   (processRow_error_classification envEmptyText "u").2 (by decide)⟩

/-! ### C4: purity of the metadata extractors -/

/-- Counterexample to C4 as stated: `extract_date_from_url` called twice
on the same URL string returns different results when the ambient date
differs, because its fallback branch reads `datetime.today()`. -/
theorem extract_date_from_url_ambient_counterexample :
    extract_date_from_url "2025-01-01" "https://x" = "2025-01-01" ∧
    extract_date_from_url "2025-01-02" "https://x" = "2025-01-02" ∧
    extract_date_from_url "2025-01-01" "https://x" ≠
      extract_date_from_url "2025-01-02" "https://x" := by
  refine ⟨rfl, rfl, ?_⟩
  decide

/-- C4 (amended): `extract_company`, `guess_sector`, `extract_symbol` and
`detect_announcement_type` are functions of their string arguments alone
(their embeddings read no ambient state), and `extract_date_from_url` is
independent of the current date exactly on URLs containing a date
pattern; on all other URLs it returns the ambient current date. -/
theorem metadata_extractors_purity (t1 t2 url : String) :
    (scanDate url.data ≠ none →
      extract_date_from_url t1 url = extract_date_from_url t2 url) ∧
    (scanDate url.data = none → extract_date_from_url t1 url = t1) := by
  unfold extract_date_from_url
  cases h : scanDate url.data with
  | none => simp
  | some g => simp [h]

/-- Witness for C4 (amended): a URL with a date pattern is past-proof
against the ambient date; one without gets the ambient date. -/
theorem metadata_extractors_purity_witness :
    extract_date_from_url "2025-01-01" "x/2024-05-17/y" =
      extract_date_from_url "2025-01-02" "x/2024-05-17/y" ∧
    extract_date_from_url "2025-01-01" "https://x" = "2025-01-01" :=
  ⟨(metadata_extractors_purity "2025-01-01" "2025-01-02" "x/2024-05-17/y").1
      (by decide),
   (metadata_extractors_purity "2025-01-01" "2025-01-02" "https://x").2
      (by decide)⟩

/-! ### C10: the date pattern accepts any 4+2+2 digit run -/

/-- Digits are never the separator characters. -/
lemma isDigit09_ne_sep {c : Char} (h : isDigit09 c = true) :
    ¬(c = '-' ∨ c = '/') := by
  rintro (rfl | rfl) <;> exact absurd h (by decide)

/-- C10: `extract_date_from_url` formats the first match of the date
pattern with no range validation — in particular `"99999999"` yields
`"9999-99-99"`, and any contiguous 4+2+2 digit run is accepted and split
as `"YYYY-MM-DD"`; only when the pattern does not occur at all does it
fall back to the ambient default date. -/
theorem extract_date_from_url_no_validation (today : String) :
    extract_date_from_url today "99999999" = "9999-99-99" ∧
    (∀ url y m d, scanDate url.data = some (y, m, d) →
      extract_date_from_url today url =
        String.mk y ++ "-" ++ String.mk m ++ "-" ++ String.mk d) ∧
    (∀ url, scanDate url.data = none → extract_date_from_url today url = today) ∧
    (∀ y m d : List Char, y.length = 4 → m.length = 2 → d.length = 2 →
      (∀ c ∈ y ++ m ++ d, isDigit09 c = true) →
      extract_date_from_url today (String.mk (y ++ m ++ d)) =
        String.mk y ++ "-" ++ String.mk m ++ "-" ++ String.mk d) := by
  refine ⟨rfl, fun url y m d h => by simp [extract_date_from_url, h],
    fun url h => by simp [extract_date_from_url, h], ?_⟩
  intro y m d hy hm hd hdig
  have hall : (y ++ m ++ d).all isDigit09 = true := by
    rw [List.all_eq_true]; exact hdig
  have hday : dateAt (y ++ m ++ d) = some (y, m, d) := by
    have hty : (y ++ m ++ d).take 4 = y := by
      rw [List.append_assoc]; exact List.take_left' hy
    have hry : (y ++ m ++ d).drop 4 = m ++ d := by
      rw [List.append_assoc]; exact List.drop_left' hy
    have hmd_all : (m ++ d).all isDigit09 = true := by
      rw [List.all_eq_true] at hall ⊢
      intro c hc
      exact hall c (by rw [List.append_assoc]; exact List.mem_append_right _ hc)
    have hheadmd : ∀ c, (m ++ d).head? = some c → isDigit09 c = true := by
      intro c hc
      rw [List.all_eq_true] at hmd_all
      exact hmd_all c (List.mem_of_mem_head? hc)
    unfold dateAt
    rw [hty]
    simp only [hy, List.all_eq_true, if_pos]
    rw [hry]
    have hsep1 : ¬((m ++ d).head? = some '-' ∨ (m ++ d).head? = some '/') := by
      rintro (h | h) <;> exact isDigit09_ne_sep (hheadmd _ h) (by simp)
    rw [if_neg hsep1]
    have htm : (m ++ d).take 2 = m := List.take_left' hm
    have hrm : (m ++ d).drop 2 = d := List.drop_left' hm
    rw [htm, hrm]
    have hd_all : d.all isDigit09 = true := by
      rw [List.all_eq_true] at hall ⊢
      intro c hc
      exact hall c (List.mem_append_right _ hc)
    have hsep2 : ¬(d.head? = some '-' ∨ d.head? = some '/') := by
      rw [List.all_eq_true] at hd_all
      rintro (h | h) <;>
        exact isDigit09_ne_sep (hd_all _ (List.mem_of_mem_head? h)) (by simp)
    rw [if_neg hsep2]
    have htd : d.take 2 = d := by rw [← hd]; exact List.take_length d
    rw [htd]
    have : m.all isDigit09 = true := by
      rw [List.all_eq_true] at hmd_all ⊢
      intro c hc
      exact hmd_all c (List.mem_append_left _ hc)
    simp_all
  have hscan : scanDate (y ++ m ++ d) = some (y, m, d) := by
    cases y with
    | nil => simp at hy
    | cons a ys =>
      rw [List.cons_append, List.cons_append, scanDate]
      rw [← List.cons_append, ← List.cons_append, hday]
  show extract_date_from_url today (String.mk (y ++ m ++ d)) = _
  unfold extract_date_from_url
  rw [show (String.mk (y ++ m ++ d)).data = y ++ m ++ d from rfl, hscan]

/-- Witness for C10: the generic digit-run clause at a concrete input. -/
theorem extract_date_from_url_no_validation_witness :
    extract_date_from_url "TODAY" (String.mk ("20240517".data)) =
      String.mk "2024".data ++ "-" ++ String.mk "05".data ++ "-" ++
        String.mk "17".data ∧
    extract_date_from_url "TODAY" "nodigits" = "TODAY" :=
  ⟨(extract_date_from_url_no_validation "TODAY").2.2.2 "2024".data "05".data
      "17".data (by decide) (by decide) (by decide) (by decide),
   (extract_date_from_url_no_validation "TODAY").2.2.1 "nodigits" (by decide)⟩

/-! ### C5: guess_sector keyword order -/

/-- `find?` returns the element at the first index whose predicate holds. -/
lemma find?_eq_of_first {α : Type} (p : α → Bool) :
    ∀ (l : List α) (i : Nat) (hi : i < l.length),
      p (l.get ⟨i, hi⟩) = true →
      (∀ j (hj : j < i), p (l.get ⟨j, Nat.lt_trans hj hi⟩) = false) →
      l.find? p = some (l.get ⟨i, hi⟩) := by
  intro l
  induction l with
  | nil => intro i hi; exact absurd hi (by simp)
  | cons a t ih =>
    intro i hi hp hfirst
    cases i with
    | zero => exact List.find?_cons_of_pos _ hp
    | succ i =>
      have ha : p a = false := hfirst 0 (Nat.succ_pos i)
      rw [List.find?_cons_of_neg _ (by simp [ha])]
      exact ih i (by simpa using hi) (by simpa using hp)
        (fun j hj => by simpa using hfirst (j + 1) (by omega))

/-- C5: `guess_sector` returns the sector mapped to the first keyword (in
the fixed table order) whose lowercase form occurs in the lowercased
text, and returns `"Unknown"` iff none of the ten keywords occurs
case-insensitively. -/
theorem guess_sector_first_keyword (text : String) :
    (guess_sector text = "Unknown" ↔
      ∀ kv ∈ sectorKeywords, pyin (pylower kv.1) (pylower text) = false) ∧
    (∀ i (hi : i < sectorKeywords.length),
      pyin (pylower (sectorKeywords.get ⟨i, hi⟩).1) (pylower text) = true →
      (∀ j (hj : j < i),
        pyin (pylower (sectorKeywords.get ⟨j, Nat.lt_trans hj hi⟩).1)
          (pylower text) = false) →
      guess_sector text = (sectorKeywords.get ⟨i, hi⟩).2) := by
  constructor
  · constructor
    · intro h kv hkv
      cases hfind : sectorKeywords.find?
          (fun kv => pyin (pylower kv.1) (pylower text)) with
      | some kv' =>
        exfalso
        unfold guess_sector at h
        rw [hfind] at h
        have hkv' := List.mem_of_find?_eq_some hfind
        simp only [sectorKeywords, List.mem_cons, List.not_mem_nil,
          or_false] at hkv'
        rcases hkv' with rfl | rfl | rfl | rfl | rfl | rfl | rfl | rfl | rfl | rfl <;>
          exact absurd h (by decide)
      | none =>
        rw [List.find?_eq_none] at hfind
        simpa using hfind kv hkv
    · intro hall
      unfold guess_sector
      rw [List.find?_eq_none.mpr (fun kv hkv => by simp [hall kv hkv])]
  · intro i hi hp hfirst
    unfold guess_sector
    rw [find?_eq_of_first _ sectorKeywords i hi hp hfirst]

/-- Witness for C5: the first keyword wins on a concrete text, and a text
without keywords yields `"Unknown"`. -/
theorem guess_sector_first_keyword_witness :
    guess_sector "Pharma news" = "Healthcare" ∧
    guess_sector "zzz" = "Unknown" :=
  ⟨(guess_sector_first_keyword "Pharma news").2 0 (by decide) (by decide)
      (fun j hj => absurd hj (Nat.not_lt_zero j)),
   (guess_sector_first_keyword "zzz").1.mpr (by decide)⟩

/-! ### C6: extract_symbol precedence -/

/-- The capture of the slash-underscore URL pattern is a nonempty run of
uppercase letters. -/
lemma scanSlashUpper_capture :
    ∀ (cs g : List Char), scanSlashUpper cs = some g →
      g ≠ [] ∧ ∀ c ∈ g, isUpperAZ c = true := by
  intro cs
  induction cs with
  | nil => intro g h; simp [scanSlashUpper] at h
  | cons c rest ih =>
    intro g h
    simp only [scanSlashUpper] at h
    split at h
    · split at h
      · rename_i hcond
        cases h
        refine ⟨?_, fun c hc => List.mem_takeWhile_imp hc⟩
        have := hcond.1
        intro hnil
        rw [hnil] at this
        simp at this
      · exact ih g h
    · exact ih g h

/-- The capture of the `/companies/` URL pattern is a nonempty run of
uppercase letters. -/
lemma scanCompanies_capture :
    ∀ (cs g : List Char), scanCompanies cs = some g →
      g ≠ [] ∧ ∀ c ∈ g, isUpperAZ c = true := by
  intro cs
  induction cs with
  | nil => intro g h; simp [scanCompanies] at h
  | cons c rest ih =>
    intro g h
    simp only [scanCompanies] at h
    split at h
    · split at h
      · rename_i hcond
        cases h
        constructor
        · rw [← List.length_pos, List.length_take]
          omega
        · intro c hc
          exact List.mem_takeWhile_imp (List.take_subset _ _ hc)
      · exact ih g h
    · exact ih g h

/-- The capture of the `BSE` text pattern is a nonempty run of uppercase
letters. -/
lemma scanBSE_capture :
    ∀ (cs g : List Char), scanBSE cs = some g →
      g ≠ [] ∧ ∀ c ∈ g, isUpperAZ c = true := by
  intro cs
  induction cs with
  | nil => intro g h; simp [scanBSE] at h
  | cons c rest ih =>
    intro g h
    simp only [scanBSE] at h
    split at h
    · split at h
      · rename_i hcond
        cases h
        constructor
        · rw [← List.length_pos, List.length_take]
          omega
        · intro c hc
          exact List.mem_takeWhile_imp (List.take_subset _ _ hc)
      · exact ih g h
    · exact ih g h

/-- A nonempty all-uppercase capture is never the string `"Unknown"`. -/
lemma capture_ne_unknown {g : List Char} (hne : g ≠ [])
    (hup : ∀ c ∈ g, isUpperAZ c = true) : String.mk g ≠ "Unknown" := by
  intro h
  have hg : g = "Unknown".data := congrArg String.data h
  subst hg
  exact absurd (hup 'n' (by decide)) (by decide)

/-- C6: `extract_symbol` applies its three patterns in fixed precedence —
slash-underscore URL pattern, then `/companies/` URL pattern, then `BSE`
text pattern — returning the first capture (so a URL match beats any text
match), and returns `"Unknown"` iff none of the three patterns matches. -/
theorem extract_symbol_precedence (url text : String) :
    (∀ g, scanSlashUpper url.data = some g →
      extract_symbol url text = String.mk g) ∧
    (scanSlashUpper url.data = none →
      ∀ g, scanCompanies url.data = some g →
        extract_symbol url text = String.mk g) ∧
    (scanSlashUpper url.data = none → scanCompanies url.data = none →
      ∀ g, scanBSE text.data = some g →
        extract_symbol url text = String.mk g) ∧
    (extract_symbol url text = "Unknown" ↔
      scanSlashUpper url.data = none ∧ scanCompanies url.data = none ∧
        scanBSE text.data = none) := by
  refine ⟨fun g h => by simp [extract_symbol, h],
    fun h1 g h => by simp [extract_symbol, h1, h],
    fun h1 h2 g h => by simp [extract_symbol, h1, h2, h], ?_, ?_⟩
  · intro h
    cases h1 : scanSlashUpper url.data with
    | some g =>
      obtain ⟨hne, hup⟩ := scanSlashUpper_capture _ _ h1
      simp only [extract_symbol, h1] at h
      exact absurd h (capture_ne_unknown hne hup)
    | none =>
      cases h2 : scanCompanies url.data with
      | some g =>
        obtain ⟨hne, hup⟩ := scanCompanies_capture _ _ h2
        simp only [extract_symbol, h1, h2] at h
        exact absurd h (capture_ne_unknown hne hup)
      | none =>
        cases h3 : scanBSE text.data with
        | some g =>
          obtain ⟨hne, hup⟩ := scanBSE_capture _ _ h3
          simp only [extract_symbol, h1, h2, h3] at h
          exact absurd h (capture_ne_unknown hne hup)
        | none => exact ⟨rfl, rfl, rfl⟩
  · rintro ⟨h1, h2, h3⟩
    simp [extract_symbol, h1, h2, h3]

/-- Witness for C6: the URL pattern beats a matching text pattern, and
the text pattern applies when both URL patterns fail. -/
theorem extract_symbol_precedence_witness :
    extract_symbol "/TCS_x" "BSE: AAA" = "TCS" ∧
    extract_symbol "u" "BSE: AAA" = "AAA" :=
  ⟨(extract_symbol_precedence "/TCS_x" "BSE: AAA").1 "TCS".data (by decide),
   (extract_symbol_precedence "u" "BSE: AAA").2.2.1 (by decide) (by decide)
      "AAA".data (by decide)⟩

/-! ### C2 / C8: parse_2l field characterization -/

/-- The numbered prefix `"n."` checked by the `parse_2l` line loop, for
`n` in 1..6. -/
def fieldTag : Nat → List Char
  | 1 => ['1', '.']
  | 2 => ['2', '.']
  | 3 => ['3', '.']
  | 4 => ['4', '.']
  | 5 => ['5', '.']
  | _ => ['6', '.']

/-- A line's stripped form starts with the prefix `"n."`. -/
def matchesField (n : Nat) (line : List Char) : Bool :=
  (fieldTag n).isPrefixOf (pystrip line)

/-- The last line of the response whose stripped form starts with `"n."`,
if any. -/
def lastFieldLine (response : String) (n : Nat) : Option (List Char) :=
  ((splitChar '\n' response.data).filter (matchesField n)).getLast?

/-- The line loop never changes the number of fields. -/
lemma parseStep_length (values : List String) (line : List Char) :
    (parseStep values line).length = values.length := by
  simp only [parseStep]
  split_ifs <;> simp

/-- One loop iteration updates field `i` exactly when the stripped line
starts with the `(i+1)`-numbered prefix, and touches no other field. -/
lemma parseStep_getElem (values : List String) (line : List Char) (i : Nat)
    (hi : i < 6) (hlen : values.length = 6) :
    (parseStep values line)[i]? =
      if matchesField (i + 1) line then some (fieldValue (pystrip line))
      else values[i]? := by
  rcases hs : pystrip line with _ | ⟨c1, _ | ⟨c2, t⟩⟩
  · interval_cases i <;> simp [parseStep, matchesField, fieldTag, hs]
  · interval_cases i <;> simp [parseStep, matchesField, fieldTag, hs]
  · by_cases hdot : c2 = '.'
    · subst hdot
      by_cases h1 : c1 = '1'
      · subst h1
        interval_cases i <;>
          simp +decide [parseStep, matchesField, fieldTag, hs,
            List.isPrefixOf_cons₂, List.getElem?_set, hlen]
      by_cases h2 : c1 = '2'
      · subst h2
        interval_cases i <;>
          simp +decide [parseStep, matchesField, fieldTag, hs,
            List.isPrefixOf_cons₂, List.getElem?_set, hlen]
      by_cases h3 : c1 = '3'
      · subst h3
        interval_cases i <;>
          simp +decide [parseStep, matchesField, fieldTag, hs,
            List.isPrefixOf_cons₂, List.getElem?_set, hlen]
      by_cases h4 : c1 = '4'
      · subst h4
        interval_cases i <;>
          simp +decide [parseStep, matchesField, fieldTag, hs,
            List.isPrefixOf_cons₂, List.getElem?_set, hlen]
      by_cases h5 : c1 = '5'
      · subst h5
        interval_cases i <;>
          simp +decide [parseStep, matchesField, fieldTag, hs,
            List.isPrefixOf_cons₂, List.getElem?_set, hlen]
      by_cases h6 : c1 = '6'
      · subst h6
        interval_cases i <;>
          simp +decide [parseStep, matchesField, fieldTag, hs,
            List.isPrefixOf_cons₂, List.getElem?_set, hlen]
      have n1 : ¬(('1' : Char) = c1) := fun h => h1 h.symm
      have n2 : ¬(('2' : Char) = c1) := fun h => h2 h.symm
      have n3 : ¬(('3' : Char) = c1) := fun h => h3 h.symm
      have n4 : ¬(('4' : Char) = c1) := fun h => h4 h.symm
      have n5 : ¬(('5' : Char) = c1) := fun h => h5 h.symm
      have n6 : ¬(('6' : Char) = c1) := fun h => h6 h.symm
      interval_cases i <;>
        simp [parseStep, matchesField, fieldTag, hs, List.isPrefixOf_cons₂,
          n1, n2, n3, n4, n5, n6]
    · have nd : ¬(('.' : Char) = c2) := fun h => hdot h.symm
      interval_cases i <;>
        simp [parseStep, matchesField, fieldTag, hs, List.isPrefixOf_cons₂, nd]

/-- The whole line loop: field `i` holds the extracted value of the last
matching line, or the initial value when no line matches. -/
lemma parse_foldl_getElem (i : Nat) (hi : i < 6) :
    ∀ (lines : List (List Char)) (values : List String), values.length = 6 →
      (lines.foldl parseStep values)[i]? =
        ((lines.filter (matchesField (i + 1))).getLast?).elim values[i]?
          (fun l => some (fieldValue (pystrip l))) := by
  intro lines
  induction lines with
  | nil => intro values _; simp
  | cons l rest ih =>
    intro values hlen
    have hlen' : (parseStep values l).length = 6 := by
      rw [parseStep_length]; exact hlen
    rw [List.foldl_cons, ih _ hlen', List.filter_cons]
    cases hm : matchesField (i + 1) l with
    | true =>
      cases hfilter : rest.filter (matchesField (i + 1)) with
      | nil => simp [parseStep_getElem values l i hi hlen, hm]
      | cons f fs =>
        cases hl : (f :: fs).getLast? with
        | none => simp at hl
        | some x => simp [hl]
    | false =>
      cases hfilter : rest.filter (matchesField (i + 1)) with
      | nil => simp [parseStep_getElem values l i hi hlen, hm]
      | cons f fs =>
        cases hl : (f :: fs).getLast? with
        | none => simp at hl
        | some x => simp [hl]

/-- C2: for every response and every `n` in 1..6, `parse_2l` maps field
`n-1` by pure line-prefix matching: the field is the stripped text after
the first `"."` of the (last) line whose stripped form starts with
`"n."`, and lines starting with none of the six prefixes contribute
nothing (a field with no matching line keeps its initial `""`). -/
theorem parse_2l_field_mapping (response : String) (n : Nat)
    (h1 : 1 ≤ n) (h2 : n ≤ 6) :
    (parse_2l response)[n - 1]? =
      (lastFieldLine response n).elim (some "")
        (fun l => some (fieldValue (pystrip l))) := by
  have hi : n - 1 < 6 := by omega
  have key := parse_foldl_getElem (n - 1) hi (splitChar '\n' response.data)
    (List.replicate 6 "") (by simp)
  have hn : n - 1 + 1 = n := by omega
  rw [hn] at key
  rw [show (List.replicate 6 "")[n - 1]? = some ("" : String) from by
    rw [List.getElem?_replicate, if_pos hi]] at key
  exact key

/-- Witness for C2: on a concrete response the mapping picks the last
`"1."` line and strips the text after the dot. -/
theorem parse_2l_field_mapping_witness :
    (parse_2l "1. A\nx\n2. B\n1. C")[0]? = some "C" :=
  (parse_2l_field_mapping "1. A\nx\n2. B\n1. C" 1 (by decide)
    (by decide)).trans (by decide)

/-- The line loop preserves the field count from start to finish. -/
lemma parse_foldl_length :
    ∀ (lines : List (List Char)) (values : List String),
      (lines.foldl parseStep values).length = values.length := by
  intro lines
  induction lines with
  | nil => intro values; rfl
  | cons l rest ih =>
    intro values
    rw [List.foldl_cons, ih, parseStep_length]

/-- C8: `parse_2l` is total and always yields exactly 6 strings; a field
whose numbered prefix never occurs is `""`, and when several lines carry
the same prefix the last one wins. -/
theorem parse_2l_total (response : String) :
    (parse_2l response).length = 6 ∧
    (∀ n, 1 ≤ n → n ≤ 6 →
      ((∀ line ∈ splitChar '\n' response.data, matchesField n line = false) →
        (parse_2l response)[n - 1]? = some "") ∧
      (∀ l, lastFieldLine response n = some l →
        (parse_2l response)[n - 1]? = some (fieldValue (pystrip l)))) := by
  constructor
  · unfold parse_2l
    rw [parse_foldl_length]
    rfl
  · intro n h1 h2
    have hi : n - 1 < 6 := by omega
    have key := parse_foldl_getElem (n - 1) hi (splitChar '\n' response.data)
      (List.replicate 6 "") (by simp)
    have hn : n - 1 + 1 = n := by omega
    rw [hn] at key
    rw [show (List.replicate 6 "")[n - 1]? = some ("" : String) from by
      rw [List.getElem?_replicate, if_pos hi]] at key
    constructor
    · intro hnone
      have hfil : (splitChar '\n' response.data).filter (matchesField n) = [] :=
        List.filter_eq_nil_iff.mpr (fun a ha => by simp [hnone a ha])
      unfold parse_2l
      rw [key, hfil]
      rfl
    · intro l hl
      unfold parse_2l
      rw [key]
      unfold lastFieldLine at hl
      rw [hl]
      rfl

/-- Witness for C8: a response with no numbered lines leaves the field
empty, and with two `"3."` lines the last wins. -/
theorem parse_2l_total_witness :
    (parse_2l "no numbers here")[2]? = some "" ∧
    (parse_2l "3. X\n3. Y")[2]? = some "Y" :=
  ⟨((parse_2l_total "no numbers here").2 3 (by decide) (by decide)).1
      (by decide),
   ((((parse_2l_total "3. X\n3. Y").2 3 (by decide) (by decide)).2
      "3. Y".data) (by decide)).trans (by decide)⟩

end TwoL
